import Mathlib

set_option autoImplicit false

/-
Verification of the devbox Environment Composition & Shell Provisioning
Engine against its natural-language specification.

The definitions below are a shallow embedding of the Go sources:
  * `Devbox.Add`, `Devbox.Remove`     — the package install state machine
    (src/unnamed/part_002, `func (d *Devbox) Add` / `Remove`);
  * `Devbox.computeNixEnv` and its helpers — the environment layer composer
    (same file, `computeNixEnv`, `configEnvs`, `ignoreCurrentEnvVar`,
    `ignoreDevEnvVar`);
  * `Devbox.writeScriptsToFiles`      — the script materializer;
  * `Devbox.runShellCmd`, `Devbox.Exec` — the shell session orchestrator
    (src/internal/boxcli/shell.go and `Devbox.Exec`).

External collaborators (the nix subprocesses, the plugin subsystem, the
filesystem) appear as explicit inputs: subprocess results are parameters,
and the on-disk state touched by the code (the persisted config, the
scripts directory) is threaded as explicit state.
-/

namespace Devbox

/-- An environment mapping (or a directory listing): an association list from
names to string values.  Go's `map[string]string` is unordered; the list
order only records insertion order and all observations go through
`envLookup`. -/
abbrev Env := List (String × String)

/-- First value bound to `k`, if any.  Mirrors a Go map read that reports
presence (`v, ok := m[k]`). -/
def envLookup : Env → String → Option String
  | [], _ => none
  | e :: rest, k => if e.1 = k then some e.2 else envLookup rest k

/-- Go map read without presence check: missing keys give `""`
(also the behavior of `os.Getenv` for unset variables). -/
def envGet (m : Env) (k : String) : String := (envLookup m k).getD ""

/-- Go map write `m[k] = v`: overwrite the binding if the key is present,
otherwise add it.  (On the directory reading of `Env` this is `os.Create`:
truncate an existing file or create a new one.) -/
def updateAssoc (m : Env) (k v : String) : Env :=
  if m.any (fun e => e.1 = k) then m.map (fun e => if e.1 = k then (k, v) else e)
  else m ++ [(k, v)]

theorem any_key_iff (m : Env) (k : String) :
    (m.any (fun e => e.1 = k)) = true ↔ k ∈ m.map Prod.fst := by
  constructor
  · intro h
    rcases List.any_eq_true.mp h with ⟨e, he, hk⟩
    exact List.mem_map.mpr ⟨e, he, by simpa using of_decide_eq_true hk⟩
  · intro h
    rcases List.mem_map.mp h with ⟨e, he, hk⟩
    exact List.any_eq_true.mpr ⟨e, he, by simp [hk]⟩

theorem envLookup_isSome_iff (m : Env) (k : String) :
    (envLookup m k).isSome = true ↔ k ∈ m.map Prod.fst := by
  induction m with
  | nil => simp [envLookup]
  | cons e rest ih =>
    by_cases he : e.1 = k
    · simp [envLookup, he]
    · simp only [envLookup, if_neg he, List.map_cons, List.mem_cons, ih]
      constructor
      · exact fun h => Or.inr h
      · rintro (h | h)
        · exact absurd h.symm he
        · exact h

theorem envLookup_map_overwrite (m : Env) (k v k' : String) :
    envLookup (m.map (fun e => if e.1 = k then (k, v) else e)) k' =
      if k' = k then (envLookup m k).map (fun _ => v) else envLookup m k' := by
  induction m with
  | nil => by_cases hk' : k' = k <;> simp [envLookup, hk']
  | cons e rest ih =>
    by_cases he : e.1 = k
    · by_cases hk' : k' = k
      · simp [envLookup, he, hk']
      · have hkk' : ¬ (k = k') := fun h => hk' h.symm
        have hek' : ¬ (e.1 = k') := fun h => hk' ((he.symm.trans h).symm ▸ rfl)
        simp only [List.map_cons, if_pos he, envLookup, if_neg hkk', if_neg hek',
          if_neg hk'] at ih ⊢
        simpa [hk'] using ih
    · by_cases hk' : k' = k
      · have hek' : ¬ (e.1 = k') := fun h => he (h.trans hk')
        simp only [List.map_cons, if_neg he, envLookup, if_neg hek', if_neg
          (show ¬ e.1 = k from he)] at ih ⊢
        simpa [hk'] using ih
      · by_cases hek' : e.1 = k'
        · simp [envLookup, he, hek', hk']
        · simp only [List.map_cons, if_neg he, envLookup, if_neg hek']
          simpa [hk'] using ih

theorem envLookup_append_single (m : Env) (k v k' : String) :
    envLookup (m ++ [(k, v)]) k' =
      match envLookup m k' with
      | some x => some x
      | none => if k = k' then some v else none := by
  induction m with
  | nil => simp [envLookup]
  | cons e rest ih =>
    by_cases he : e.1 = k'
    · simp [envLookup, he]
    · simp only [List.cons_append, envLookup, if_neg he]
      exact ih

theorem envLookup_updateAssoc (m : Env) (k v k' : String) :
    envLookup (updateAssoc m k v) k' = if k' = k then some v else envLookup m k' := by
  unfold updateAssoc
  by_cases hany : (m.any fun e => e.1 = k) = true
  · rw [if_pos hany, envLookup_map_overwrite]
    by_cases hk' : k' = k
    · have hmem : k ∈ m.map Prod.fst := (any_key_iff m k).mp hany
      have hs : (envLookup m k).isSome = true := (envLookup_isSome_iff m k).mpr hmem
      rcases Option.isSome_iff_exists.mp hs with ⟨x, hx⟩
      simp [hk', hx]
    · simp [hk']
  · rw [if_neg hany, envLookup_append_single]
    by_cases hk' : k' = k
    · have hmem : k ∉ m.map Prod.fst := fun h => hany ((any_key_iff m k).mpr h)
      have hnone : envLookup m k = none := by
        cases h : envLookup m k with
        | none => rfl
        | some x =>
          exact absurd ((envLookup_isSome_iff m k).mp (by simp [h])) hmem
      simp [hk', hnone]
    · have : ¬ (k = k') := fun h => hk' h.symm
      cases h : envLookup m k' <;> simp [hk', h, this]

theorem envLookup_updateAssoc_self (m : Env) (k v : String) :
    envLookup (updateAssoc m k v) k = some v := by
  simp [envLookup_updateAssoc]

theorem envLookup_updateAssoc_ne (m : Env) (k v k' : String) (h : k' ≠ k) :
    envLookup (updateAssoc m k v) k' = envLookup m k' := by
  simp [envLookup_updateAssoc, h]

/-! ## Package install state machine (`Devbox.Add` / `Devbox.Remove`)

State threaded explicitly: `rawPackages` is the in-memory
`d.cfg.RawPackages`, `persisted` is the intent stored in `devbox.json`
(`d.saveCfg()` copies the former into the latter; the file write itself is
modelled as infallible).  The external collaborators are parameters:
`pkgExists` stands for `nix.PkgExists`, and the `Bool` flags stand for the
success of `plugin.Remove`, `d.removePackagesFromProfile` and
`d.ensurePackagesAreInstalled` (the profile sync step). -/

/-- In-memory plus persisted declared package intent. -/
structure PkgState where
  rawPackages : List String
  persisted : List String
deriving Repr

/-- Errors surfaced by the package state machine. -/
inductive PkgError where
  | packageNotFound (pkg : String)
  | pluginRemoveFailed
  | profileRemoveFailed
  | syncFailed
deriving DecidableEq, Repr

/-- The append loop of `Add`: each package is appended to the declared
intent unless already present (`slices.Contains` check against the list
being grown). -/
def appendNewPackages (raw : List String) (pkgs : List String) : List String :=
  pkgs.foldl (fun acc pkg => if pkg ∈ acc then acc else acc ++ [pkg]) raw

/-- `Devbox.Add` (src/unnamed/part_002 lines 123-173): validate every package
against the resolver, append the new ones, persist, sync; on sync failure
restore the snapshot `original`, persist it, and surface the sync error. -/
def Add (pkgExists : String → Bool) (syncOk : Bool) (st : PkgState)
    (pkgs : List String) : Except PkgError Unit × PkgState :=
  let original := st.rawPackages
  match pkgs.find? (fun p => ! pkgExists p) with
  | some p => (Except.error (PkgError.packageNotFound p), st)
  | none =>
    let raw1 := appendNewPackages st.rawPackages pkgs
    let st1 : PkgState := { rawPackages := raw1, persisted := raw1 }
    if syncOk then (Except.ok (), st1)
    else (Except.error PkgError.syncFailed,
          { rawPackages := original, persisted := original })

/-- Result of `Devbox.Remove`: outcome, final state, the packages actually
uninstalled (`lo.Intersect(d.cfg.RawPackages, pkgs)`), and the packages the
user asked to remove that were not declared (warned about, non-fatally). -/
structure RemoveResult where
  result : Except PkgError Unit
  state : PkgState
  uninstalledPackages : List String
  missingWarned : List String
deriving Repr

/-- `Devbox.Remove` (src/unnamed/part_002 lines 176-208): drop the requested
packages from the intent (`lo.Difference`), warn about the missing ones,
persist, then run plugin removal, profile removal and the uninstall sync.
No step after persisting rolls the intent back. -/
def Remove (pluginRemoveOk profileRemoveOk syncOk : Bool) (st : PkgState)
    (pkgs : List String) : RemoveResult :=
  let uninstalled := pkgs.filter (fun p => decide (p ∈ st.rawPackages))
  let raw1 := st.rawPackages.filter (fun p => decide (p ∉ pkgs))
  let missing := pkgs.filter (fun p => decide (p ∉ st.rawPackages))
  let st1 : PkgState := { rawPackages := raw1, persisted := raw1 }
  if pluginRemoveOk = false then
    ⟨Except.error PkgError.pluginRemoveFailed, st1, uninstalled, missing⟩
  else if profileRemoveOk = false then
    ⟨Except.error PkgError.profileRemoveFailed, st1, uninstalled, missing⟩
  else if syncOk = false then
    ⟨Except.error PkgError.syncFailed, st1, uninstalled, missing⟩
  else
    ⟨Except.ok (), st1, uninstalled, missing⟩

/-- C1: if every added package validates and the profile sync fails, `Add`
surfaces the sync error and restores both the in-memory and the persisted
intent to their exact pre-Add value. -/
theorem claim_C1_add_rollback (pkgExists : String → Bool) (st : PkgState)
    (pkgs : List String) (hval : ∀ p ∈ pkgs, pkgExists p = true)
    (hcons : st.persisted = st.rawPackages) :
    Add pkgExists false st pkgs = (Except.error PkgError.syncFailed, st) := by
  have hfind : pkgs.find? (fun p => ! pkgExists p) = none := by
    rw [List.find?_eq_none]
    intro p hp
    simp [hval p hp]
  have hst : ({ rawPackages := st.rawPackages, persisted := st.rawPackages } : PkgState) = st := by
    cases st with
    | mk raw pers => simp_all
  simp only [Add, hfind]
  rw [if_neg (by simp), hst]

theorem claim_C1_add_rollback_witness :
    Add (fun _ => true) false { rawPackages := ["x"], persisted := ["x"] } ["y"] =
      (Except.error PkgError.syncFailed, { rawPackages := ["x"], persisted := ["x"] }) :=
  claim_C1_add_rollback (fun _ => true) { rawPackages := ["x"], persisted := ["x"] }
    ["y"] (by intro p _; rfl) rfl

/-- C2: `Remove` persists the removed packages out of the intent before the
sync step; when the sync then fails the error is surfaced but the intent is
not rolled back (it still equals the post-removal value), and packages
absent from the intent are only collected into a non-fatal warning. -/
theorem claim_C2_remove_no_rollback (st : PkgState) (pkgs : List String) :
    (Remove true true false st pkgs).result = Except.error PkgError.syncFailed ∧
    (Remove true true false st pkgs).state.persisted =
      st.rawPackages.filter (fun p => decide (p ∉ pkgs)) ∧
    (Remove true true false st pkgs).state.rawPackages =
      st.rawPackages.filter (fun p => decide (p ∉ pkgs)) ∧
    (Remove true true false st pkgs).missingWarned =
      pkgs.filter (fun p => decide (p ∉ st.rawPackages)) ∧
    ((Remove true true false st pkgs).missingWarned ≠ [] ↔
      ∃ p ∈ pkgs, p ∉ st.rawPackages) := by
  refine ⟨rfl, rfl, rfl, rfl, ?_⟩
  have hmw : (Remove true true false st pkgs).missingWarned =
      pkgs.filter (fun p => decide (p ∉ st.rawPackages)) := rfl
  rw [hmw]
  constructor
  · intro hne
    rcases List.exists_mem_of_ne_nil _ hne with ⟨p, hp⟩
    rcases List.mem_filter.mp hp with ⟨hmem, hdec⟩
    exact ⟨p, hmem, by simpa using hdec⟩
  · rintro ⟨p, hmem, habs⟩
    intro hnil
    have hpf : p ∈ pkgs.filter (fun p => decide (p ∉ st.rawPackages)) :=
      List.mem_filter.mpr ⟨hmem, by simpa using habs⟩
    rw [hnil] at hpf
    exact absurd hpf (List.not_mem_nil p)

/-! ## One-shot execution (`Devbox.Exec`)

`featureflag.UnifiedEnv` is not under src/ and is passed as the
`unifiedEnv` parameter; the spec and the testscript in src/unnamed/part_000
fix it to enabled.  Side effects of each path are recorded as a trace. -/

/-- Observable side effects of the execution paths. -/
inductive ExecEffect where
  | ensurePackagesInstalled
  | writeScripts
  | composeEnv
  | runCommand (cmd : String)
  | execWithShell
deriving DecidableEq, Repr

/-- Errors surfaced by `Devbox.Exec`. -/
inductive ExecError where
  | cannotExecuteEmptyCommand
deriving DecidableEq, Repr

/-- Trace of `Devbox.RunScript` at the granularity relevant here: ensure
packages, materialize scripts, compose the environment, run the command. -/
def RunScriptEffects (cmdName : String) : List ExecEffect :=
  [ExecEffect.ensurePackagesInstalled, ExecEffect.writeScripts,
   ExecEffect.composeEnv, ExecEffect.runCommand cmdName]

/-- `Devbox.Exec` (src/unnamed/part_002 lines 435-443): with the unified-env
flag enabled, a non-empty command list is delegated to `RunScript` and an
empty one is rejected with an error before any side effect. -/
def Exec (unifiedEnv : Bool) (cmds : List String) :
    List ExecEffect × Except ExecError Unit :=
  if unifiedEnv = false then
    ([ExecEffect.ensurePackagesInstalled, ExecEffect.composeEnv,
      ExecEffect.execWithShell], Except.ok ())
  else
    match cmds with
    | cmd :: _ => (RunScriptEffects cmd, Except.ok ())
    | [] => ([], Except.error ExecError.cannotExecuteEmptyCommand)

/-- C10: `Exec` with an empty command list returns the empty-command error
and performs no side effect: no package sync, no script write, no
environment composition. -/
theorem claim_C10_exec_empty :
    Exec true [] = ([], Except.error ExecError.cannotExecuteEmptyCommand) := rfl

/-! ## Shell session orchestrator (`runShellCmd`, `IsDevboxShellEnabled`)

`runShellCmd` (src/internal/boxcli/shell.go lines 56-92) is modelled after
argument parsing and `devbox.Open` have succeeded: the inputs are the
`--print-env` flag, the trailing command list and the ambient environment.
The outcome records the warnings written to stderr and which terminal
behavior was reached. -/

/-- `strconv.ParseBool`: the exact set of accepted literals. -/
def parseBool (str : String) : Option Bool :=
  if str = "1" ∨ str = "t" ∨ str = "T" ∨ str = "true" ∨ str = "TRUE" ∨ str = "True" then
    some true
  else if str = "0" ∨ str = "f" ∨ str = "F" ∨ str = "false" ∨ str = "FALSE" ∨ str = "False" then
    some false
  else
    none

/-- `IsDevboxShellEnabled` (src/unnamed/part_002 lines 1023-1029): read the
marker with `os.Getenv` (unset gives `""`), parse it with
`strconv.ParseBool`, and treat a parse error as `false`. -/
def IsDevboxShellEnabled (ambient : Env) : Bool :=
  (parseBool (envGet ambient "DEVBOX_SHELL_ENABLED")).getD false

/-- Terminal behavior of one `devbox shell` invocation. -/
inductive ShellAction where
  | printedEnv
  | inceptionError
  | execCommand (cmds : List String)
  | interactiveShell
deriving DecidableEq, Repr

/-- Warnings written plus the terminal behavior reached. -/
structure ShellCmdResult where
  warnings : List String
  action : ShellAction
deriving DecidableEq, Repr

/-- The deprecation warning printed for `devbox shell -- <cmd>`. -/
def shellDeprecationWarning : String :=
  "\x22devbox shell -- <cmd>\x22 is deprecated and will disappear in a future version. Use \x22devbox run -- <cmd>\x22 instead\n"

/-- `runShellCmd` (src/internal/boxcli/shell.go lines 56-92): `--print-env`
returns early; then the inception guard; then a trailing command is warned
about (under the unified-env flag, not under src/ and fixed to enabled by
the spec and the testscript) and delegated to `Exec`; otherwise an
interactive shell is started. -/
def runShellCmd (unifiedEnv printEnvFlag : Bool) (ambient : Env)
    (cmds : List String) : ShellCmdResult :=
  if printEnvFlag then ⟨[], ShellAction.printedEnv⟩
  else if IsDevboxShellEnabled ambient then ⟨[], ShellAction.inceptionError⟩
  else if cmds.length > 0 then
    ⟨if unifiedEnv then [shellDeprecationWarning] else [], ShellAction.execCommand cmds⟩
  else ⟨[], ShellAction.interactiveShell⟩

/-- C7 counterexample: the inception marker can be present in the ambient
environment with value `"0"`; `IsDevboxShellEnabled` is then `false` and an
interactive shell is started instead of failing with the inception error,
so mere presence of the marker does not trigger the guard. -/
theorem claim_C7_counterexample :
    envLookup [("DEVBOX_SHELL_ENABLED", "0")] "DEVBOX_SHELL_ENABLED" = some "0" ∧
    runShellCmd true false [("DEVBOX_SHELL_ENABLED", "0")] [] =
      ⟨[], ShellAction.interactiveShell⟩ ∧
    runShellCmd true false [("DEVBOX_SHELL_ENABLED", "0")] ["echo", "hi"] =
      ⟨[shellDeprecationWarning], ShellAction.execCommand ["echo", "hi"]⟩ := by
  refine ⟨rfl, ?_, ?_⟩ <;> rfl

/-- C7 (amended): whenever the inception marker's value parses to `true`
under `strconv.ParseBool`, every session mode — interactive and one-shot —
fails with the inception error (no warning, no command execution, no
shell hand-off), for any unified-env flag and any command list, provided
the invocation is not the early-returning `--print-env` query. -/
theorem claim_C7_inception_guard (unifiedEnv : Bool) (ambient : Env)
    (cmds : List String) (h : IsDevboxShellEnabled ambient = true) :
    runShellCmd unifiedEnv false ambient cmds = ⟨[], ShellAction.inceptionError⟩ := by
  simp [runShellCmd, h]

theorem claim_C7_inception_guard_witness :
    runShellCmd true false [("DEVBOX_SHELL_ENABLED", "1")] [] =
      ⟨[], ShellAction.inceptionError⟩ ∧
    runShellCmd true false [("DEVBOX_SHELL_ENABLED", "1")] ["ls"] =
      ⟨[], ShellAction.inceptionError⟩ :=
  ⟨claim_C7_inception_guard true [("DEVBOX_SHELL_ENABLED", "1")] [] rfl,
   claim_C7_inception_guard true [("DEVBOX_SHELL_ENABLED", "1")] ["ls"] rfl⟩

/-- C9: a legacy `devbox shell -- <cmd>` invocation (trailing command
present, guard not triggered, no `--print-env`) executes the command in
one-shot mode — never an interactive shell — and emits the deprecation
warning exactly once; the warning is only an output, the composed
environment is produced by `computeNixEnv` which takes no warning input. -/
theorem claim_C9_deprecated_shell_cmd (ambient : Env) (cmds : List String)
    (hcmds : cmds ≠ []) (hguard : IsDevboxShellEnabled ambient = false) :
    runShellCmd true false ambient cmds =
      ⟨[shellDeprecationWarning], ShellAction.execCommand cmds⟩ := by
  have hlen : cmds.length > 0 := List.length_pos.mpr hcmds
  simp [runShellCmd, hguard, hlen]

theorem claim_C9_deprecated_shell_cmd_witness :
    runShellCmd true false [("HOME", "/root")] ["echo", "foo"] =
      ⟨[shellDeprecationWarning], ShellAction.execCommand ["echo", "foo"]⟩ :=
  claim_C9_deprecated_shell_cmd [("HOME", "/root")] ["echo", "foo"]
    (by simp) rfl

/-! ## Environment layer composer (`computeNixEnv` and helpers)

The composer (src/unnamed/part_002 lines 776-860) layers: (1) the ambient
process environment minus `ignoreCurrentEnvVar`; (2) the exported
`nix print-dev-env` variables minus `ignoreDevEnvVar` and the TLS
sentinel; (3) the two synthetic session markers; (4) plugin variables;
(5) expanded `devbox.json` variables; (6) the recomputed `PATH`.
The subprocess outputs (`nix.PrintDevEnv`, `plugin.Env`) are inputs here. -/

/-- `strings.Cut(kv, "=")`: split at the first `=`; `none` when absent. -/
def cutEqAux (acc : List Char) : List Char → Option (String × String)
  | [] => none
  | c :: rest =>
    if c = '=' then some (String.mk acc, String.mk rest)
    else cutEqAux (acc ++ [c]) rest

/-- Split a `KEY=VAL` entry of `os.Environ` at its first `=`. -/
def cutEq (kv : String) : Option (String × String) := cutEqAux [] kv.data

/-- `ignoreCurrentEnvVar` (src/unnamed/part_002 lines 1039-1051): ambient
variables never copied forward. -/
def ignoreCurrentEnvVar (key : String) : Bool :=
  ["PWD", "OLDPWD", "SHLVL", "SHELL"].contains key

/-- `ignoreDevEnvVar` (src/unnamed/part_002 lines 1058-1075): build
environment variables never copied forward. -/
def ignoreDevEnvVar (key : String) : Bool :=
  ["BASHOPTS", "HOME", "NIX_BUILD_TOP", "NIX_ENFORCE_PURITY", "NIX_LOG_FD",
   "NIX_REMOTE", "PPID", "SHELL", "SHELLOPTS", "TEMP", "TEMPDIR", "TERM",
   "TMP", "TMPDIR", "TZ", "UID"].contains key

/-- One entry of the `nix print-dev-env` output: a kind tag (`var`,
`exported` or `array`) and the value. -/
structure NixVariable where
  type : String
  value : String
deriving DecidableEq, Repr

/-- Step 1 of `computeNixEnv`: copy the ambient entries, failing on an
entry without `=` and skipping the `ignoreCurrentEnvVar` keys. -/
def buildCurrentEnv : List String → Env → Except String Env
  | [], env => Except.ok env
  | kv :: rest, env =>
    match cutEq kv with
    | none => Except.error ("expected \x22=\x22 in keyval: " ++ kv)
    | some (key, val) =>
      if ignoreCurrentEnvVar key then buildCurrentEnv rest env
      else buildCurrentEnv rest (updateAssoc env key val)

/-- Step 2 of `computeNixEnv`: merge the `nix print-dev-env` variables,
keeping only `exported` ones, dropping `SSL_CERT_FILE` exactly at the
sentinel value, and dropping the `ignoreDevEnvVar` keys. -/
def mergeDevEnv : Env → List (String × NixVariable) → Env
  | env, [] => env
  | env, (key, val) :: rest =>
    if val.type ≠ "exported" then mergeDevEnv env rest
    else if key = "SSL_CERT_FILE" ∧ val.value = "/no-cert-file.crt" then
      mergeDevEnv env rest
    else if ignoreDevEnvVar key then mergeDevEnv env rest
    else mergeDevEnv (updateAssoc env key val.value) rest

/-- A `for k, v := range m { env[k] = v }` merge loop (used for the plugin
variables and for the expanded config variables). -/
def mergeEnvPairs : Env → List (String × String) → Env
  | env, [] => env
  | env, (k, v) :: rest => mergeEnvPairs (updateAssoc env k v) rest

/-! ### `os.Expand` (used by `configEnvs`)

Faithful translation of Go's `os.Expand`/`getShellName`; the scanner is
written with a fuel argument so that it stays structurally recursive — one
unit of fuel is spent per emitted reference or character, and every step
also consumes at least one input character, so `length + 1` fuel always
suffices. -/

/-- Go `isShellSpecialVar`. -/
def isShellSpecialVar (c : Char) : Bool :=
  c = '*' || c = '#' || c = '$' || c = '@' || c = '!' || c = '?' || c = '-' ||
    ('0' ≤ c && c ≤ '9')

/-- Go `isAlphaNum`. -/
def isAlphaNum (c : Char) : Bool :=
  c = '_' || ('0' ≤ c && c ≤ '9') || ('a' ≤ c && c ≤ 'z') || ('A' ≤ c && c ≤ 'Z')

/-- Longest alphanumeric name at the head of the input. -/
def takeAlphaNum : List Char → List Char
  | [] => []
  | c :: rest => if isAlphaNum c then c :: takeAlphaNum rest else []

/-- Scan for the closing brace of a `$\x7b...\x7d` reference: returns the
name and the number of consumed characters, `("", 2)` for an empty
reference and `("", 1)` for an unterminated one. -/
def braceScan (acc : List Char) (i : Nat) : List Char → String × Nat
  | [] => ("", 1)
  | c :: rest =>
    if c = '\x7d' then
      if i = 1 then ("", 2) else (String.mk acc, i + 1)
    else braceScan (acc ++ [c]) (i + 1) rest

/-- Go `getShellName`: the reference name starting after a `$` and the
number of characters it occupies. -/
def getShellName : List Char → String × Nat
  | [] => ("", 0)
  | c0 :: rest =>
    if c0 = '\x7b' then
      match rest with
      | c :: c2 :: _ =>
        if isShellSpecialVar c && c2 = '\x7d' then (String.mk [c], 3)
        else braceScan [] 1 rest
      | _ => braceScan [] 1 rest
    else if isShellSpecialVar c0 then (String.mk [c0], 1)
    else
      let name := takeAlphaNum (c0 :: rest)
      (String.mk name, name.length)

/-- The scanning loop of Go `os.Expand`, with fuel (see section comment). -/
def expandAux (mapping : String → String) : Nat → List Char → List Char
  | 0, _ => []
  | _ + 1, [] => []
  | fuel + 1, c :: rest =>
    if c = '$' then
      match rest with
      | [] => ['$']
      | _ :: _ =>
        let nw := getShellName rest
        if nw.1 = "" ∧ 0 < nw.2 then expandAux mapping fuel (rest.drop nw.2)
        else if nw.1 = "" then '$' :: expandAux mapping fuel rest
        else (mapping nw.1).data ++ expandAux mapping fuel (rest.drop nw.2)
    else c :: expandAux mapping fuel rest

/-- Go `os.Expand(s, mapping)`: replace each `$VAR` / `$\x7bVAR\x7d`
reference by `mapping VAR`. -/
def osExpand (s : String) (mapping : String → String) : String :=
  String.mk (expandAux mapping (s.data.length + 1) s.data)

/-- The `mapperfunc` closure of `configEnvs` (src/unnamed/part_002 lines
1000-1011): `PWD` resolves to the project directory unconditionally, other
names resolve against the computed environment, absent names give `""`. -/
def mapperfunc (projectDir : String) (computedEnv : Env) (value : String) : String :=
  if value = "PWD" then projectDir
  else
    match envLookup computedEnv value with
    | some v => v
    | none => ""

/-- The accumulation loop of `configEnvs`. -/
def configEnvsAux (projectDir : String) (computedEnv : Env) :
    List (String × String) → Env → Env
  | [], acc => acc
  | (key, value) :: rest, acc =>
    configEnvsAux projectDir computedEnv rest
      (updateAssoc acc key (osExpand value (mapperfunc projectDir computedEnv)))

/-- `Devbox.configEnvs` (src/unnamed/part_002 lines 999-1020): expand each
declared config variable against the computed environment. -/
def configEnvs (projectDir : String) (computedEnv : Env)
    (cfgEnv : List (String × String)) : Env :=
  configEnvsAux projectDir computedEnv cfgEnv []

/-- Modelled from the spec: `nix.JoinPathLists` is not under src/ (package
`internal/nix`); §4.1 step 7 of the spec specifies the ordered colon-joined
concatenation of the segments, without deduplication. -/
def JoinPathLists (pathLists : List String) : String :=
  String.intercalate ":" pathLists

/-- Inputs of one composition call.  `currentEnv` is `os.Environ()`;
`devEnvVars` is the `nix.PrintDevEnv` output; `pluginEnv` is
`plugin.Env`; `envConfigEnabled` is `featureflag.EnvConfig`; `cfgEnv` is
`d.cfg.Env`; `pluginVirtenvDir` stands for `d.pluginVirtenvPath()` (its
path constant `plugin.VirtenvBinPath` is not under src/). -/
structure ComposeInput where
  currentEnv : List String
  devEnvVars : List (String × NixVariable)
  pluginEnv : List (String × String)
  envConfigEnabled : Bool
  cfgEnv : List (String × String)
  projectDir : String
  pluginVirtenvDir : String

/-- `Devbox.computeNixEnv` (src/unnamed/part_002 lines 776-860). -/
def computeNixEnv (i : ComposeInput) : Except String Env :=
  match buildCurrentEnv i.currentEnv [] with
  | Except.error e => Except.error e
  | Except.ok env0 =>
    let currentEnvPath := envGet env0 "PATH"
    let env1 := mergeDevEnv env0 i.devEnvVars
    let nixEnvPath := envGet env1 "PATH"
    let env2 := updateAssoc env1 "__ETC_PROFILE_NIX_SOURCED" "1"
    let env3 := updateAssoc env2 "DEVBOX_SHELL_ENABLED" "1"
    let env4 := mergeEnvPairs env3 i.pluginEnv
    let env5 :=
      if i.envConfigEnabled then
        mergeEnvPairs env4 (configEnvs i.projectDir env4 i.cfgEnv)
      else env4
    Except.ok (updateAssoc env5 "PATH"
      (JoinPathLists [i.pluginVirtenvDir, nixEnvPath, currentEnvPath]))

theorem mergeDevEnv_not_mem (vars : List (String × NixVariable)) (env : Env)
    (k : String) (h : k ∉ vars.map Prod.fst) :
    envLookup (mergeDevEnv env vars) k = envLookup env k := by
  induction vars generalizing env with
  | nil => rfl
  | cons e rest ih =>
    rcases e with ⟨k', v'⟩
    simp only [List.map_cons, List.mem_cons] at h
    push_neg at h
    have hne : k ≠ k' := h.1
    have hrest : k ∉ rest.map Prod.fst := h.2
    simp only [mergeDevEnv]
    by_cases h1 : v'.type = "exported"
    · rw [if_neg (not_not_intro h1)]
      by_cases h2 : k' = "SSL_CERT_FILE" ∧ v'.value = "/no-cert-file.crt"
      · rw [if_pos h2]
        exact ih env hrest
      · rw [if_neg h2]
        by_cases h3 : ignoreDevEnvVar k' = true
        · rw [if_pos h3]
          exact ih env hrest
        · rw [if_neg h3, ih _ hrest, envLookup_updateAssoc_ne _ _ _ _ hne]
    · rw [if_pos h1]
      exact ih env hrest

/-- C5: an entry of the build environment is copied into the mapping if and
only if its kind is `exported`, it is not the TLS-certificate sentinel
special case, and its key is not in `ignoreDevEnvVar`; otherwise the key
keeps its previous-layer binding. -/
theorem claim_C5_built_env_filter (env : Env) (vars : List (String × NixVariable))
    (hnd : (vars.map Prod.fst).Nodup) (key : String) (nv : NixVariable)
    (hmem : (key, nv) ∈ vars) :
    envLookup (mergeDevEnv env vars) key =
      if nv.type = "exported" ∧
          ¬ (key = "SSL_CERT_FILE" ∧ nv.value = "/no-cert-file.crt") ∧
          ignoreDevEnvVar key = false
      then some nv.value
      else envLookup env key := by
  induction vars generalizing env with
  | nil => exact absurd hmem (List.not_mem_nil _)
  | cons e rest ih =>
    rcases e with ⟨k', v'⟩
    simp only [List.map_cons, List.nodup_cons] at hnd
    rcases List.mem_cons.mp hmem with hhead | htail
    · obtain ⟨hk, hv⟩ := Prod.mk.injEq _ _ _ _ ▸ hhead
      subst hk
      subst hv
      have hrest : key ∉ rest.map Prod.fst := hnd.1
      simp only [mergeDevEnv]
      by_cases h1 : nv.type = "exported"
      · rw [if_neg (not_not_intro h1)]
        by_cases h2 : key = "SSL_CERT_FILE" ∧ nv.value = "/no-cert-file.crt"
        · rw [if_pos h2, mergeDevEnv_not_mem rest env key hrest,
            if_neg (fun hc => hc.2.1 h2)]
        · rw [if_neg h2]
          by_cases h3 : ignoreDevEnvVar key = true
          · rw [if_pos h3, mergeDevEnv_not_mem rest env key hrest,
              if_neg (fun hc => absurd h3 (by simp [hc.2.2]))]
          · have h3' : ignoreDevEnvVar key = false := by simpa using h3
            rw [if_neg h3, mergeDevEnv_not_mem rest _ key hrest,
              envLookup_updateAssoc_self, if_pos ⟨h1, h2, h3'⟩]
      · rw [if_pos h1, mergeDevEnv_not_mem rest env key hrest,
          if_neg (fun hc => h1 hc.1)]
    · have hkeymem : key ∈ rest.map Prod.fst :=
        List.mem_map.mpr ⟨(key, nv), htail, rfl⟩
      have hne : key ≠ k' := fun hc => hnd.1 (hc ▸ hkeymem)
      simp only [mergeDevEnv]
      by_cases h1 : v'.type = "exported"
      · rw [if_neg (not_not_intro h1)]
        by_cases h2 : k' = "SSL_CERT_FILE" ∧ v'.value = "/no-cert-file.crt"
        · rw [if_pos h2]
          exact ih env hnd.2 htail
        · rw [if_neg h2]
          by_cases h3 : ignoreDevEnvVar k' = true
          · rw [if_pos h3]
            exact ih env hnd.2 htail
          · rw [if_neg h3, ih (updateAssoc env k' v'.value) hnd.2 htail,
              envLookup_updateAssoc_ne env k' v'.value key hne]
      · rw [if_pos h1]
        exact ih env hnd.2 htail

theorem configEnvsAux_not_mem (projectDir : String) (computedEnv : Env)
    (cfgEnv : List (String × String)) (acc : Env) (k : String)
    (h : k ∉ cfgEnv.map Prod.fst) :
    envLookup (configEnvsAux projectDir computedEnv cfgEnv acc) k = envLookup acc k := by
  induction cfgEnv generalizing acc with
  | nil => rfl
  | cons e rest ih =>
    rcases e with ⟨key, value⟩
    simp only [List.map_cons, List.mem_cons] at h
    push_neg at h
    simp only [configEnvsAux]
    rw [ih _ h.2, envLookup_updateAssoc_ne _ _ _ _ h.1]

theorem configEnvsAux_lookup (projectDir : String) (computedEnv : Env)
    (cfgEnv : List (String × String)) (acc : Env)
    (hnd : (cfgEnv.map Prod.fst).Nodup) (key value : String)
    (hmem : (key, value) ∈ cfgEnv) :
    envLookup (configEnvsAux projectDir computedEnv cfgEnv acc) key =
      some (osExpand value (mapperfunc projectDir computedEnv)) := by
  induction cfgEnv generalizing acc with
  | nil => exact absurd hmem (List.not_mem_nil _)
  | cons e rest ih =>
    rcases e with ⟨k', v'⟩
    simp only [List.map_cons, List.nodup_cons] at hnd
    rcases List.mem_cons.mp hmem with hhead | htail
    · obtain ⟨hk, hv⟩ := Prod.mk.injEq _ _ _ _ ▸ hhead
      subst hk
      subst hv
      simp only [configEnvsAux]
      rw [configEnvsAux_not_mem _ _ _ _ _ hnd.1, envLookup_updateAssoc_self]
    · simp only [configEnvsAux]
      exact ih _ hnd.2 htail

/-- C6: each declared config variable expands, via `os.Expand`, every
`$VAR` / `$\x7bVAR\x7d` reference against the composed-so-far mapping only
(the result for a key depends on no other declared variable); the
reference name `PWD` resolves to the project directory regardless of the
mapping, an absent reference name expands to the empty string, and the
`FOO=$\x7bBAR\x7d` examples behave as claimed. -/
theorem claim_C6_config_expansion (projectDir : String) (computedEnv : Env)
    (cfgEnv : List (String × String)) (hnd : (cfgEnv.map Prod.fst).Nodup)
    (key value : String) (hmem : (key, value) ∈ cfgEnv) :
    envLookup (configEnvs projectDir computedEnv cfgEnv) key =
      some (osExpand value (mapperfunc projectDir computedEnv)) ∧
    mapperfunc projectDir computedEnv "PWD" = projectDir ∧
    (∀ n, n ≠ "PWD" →
      mapperfunc projectDir computedEnv n = (envLookup computedEnv n).getD "") ∧
    osExpand "$\x7bBAR\x7d" (mapperfunc projectDir [("BAR", "baz")]) = "baz" ∧
    osExpand "$\x7bBAR\x7d" (mapperfunc projectDir []) = "" ∧
    osExpand "$BAR" (mapperfunc projectDir [("BAR", "baz")]) = "baz" ∧
    osExpand "$BAR" (mapperfunc projectDir []) = "" := by
  refine ⟨configEnvsAux_lookup projectDir computedEnv cfgEnv [] hnd key value hmem,
    by simp [mapperfunc], ?_, rfl, rfl, rfl, rfl⟩
  intro n hn
  simp only [mapperfunc, if_neg hn]
  cases envLookup computedEnv n <;> rfl

theorem claim_C6_config_expansion_witness :
    envLookup (configEnvs "/proj" [("BAR", "baz")] [("FOO", "$\x7bBAR\x7d")]) "FOO" =
      some "baz" ∧
    envLookup (configEnvs "/proj" [] [("FOO", "$\x7bBAR\x7d")]) "FOO" = some "" ∧
    envLookup (configEnvs "/proj" [("PWD", "/elsewhere")] [("FOO", "$PWD")]) "FOO" =
      some "/proj" := by
  refine ⟨?_, ?_, ?_⟩
  · rw [(claim_C6_config_expansion "/proj" [("BAR", "baz")] [("FOO", "$\x7bBAR\x7d")]
      (by simp) "FOO" "$\x7bBAR\x7d" (by simp)).1]
    rfl
  · rw [(claim_C6_config_expansion "/proj" [] [("FOO", "$\x7bBAR\x7d")]
      (by simp) "FOO" "$\x7bBAR\x7d" (by simp)).1]
    rfl
  · rw [(claim_C6_config_expansion "/proj" [("PWD", "/elsewhere")] [("FOO", "$PWD")]
      (by simp) "FOO" "$PWD" (by simp)).1]
    rfl

/-- C3: for every composition call whose ambient entries parse, the final
`PATH` is the colon-joined concatenation of exactly three segments in
order: the plugin-virtual-environment binary directory, the `PATH`
recorded after the built-environment merge, and the ambient `PATH`
recorded before any overwriting; no deduplication is applied. -/
theorem claim_C3_path_composition (i : ComposeInput) (env0 : Env)
    (h : buildCurrentEnv i.currentEnv [] = Except.ok env0) :
    ∃ env, computeNixEnv i = Except.ok env ∧
      envLookup env "PATH" =
        some (JoinPathLists [i.pluginVirtenvDir,
          envGet (mergeDevEnv env0 i.devEnvVars) "PATH", envGet env0 "PATH"]) := by
  unfold computeNixEnv
  rw [h]
  exact ⟨_, rfl, envLookup_updateAssoc_self _ _ _⟩

theorem claim_C3_path_composition_witness :
    ∃ env,
      computeNixEnv
        { currentEnv := ["PATH=/c"],
          devEnvVars := [("PATH", ⟨"exported", "/b"⟩)],
          pluginEnv := [], envConfigEnabled := false, cfgEnv := [],
          projectDir := "/p", pluginVirtenvDir := "/a" } = Except.ok env ∧
      envLookup env "PATH" = some "/a:/b:/c" := by
  obtain ⟨env, h1, h2⟩ := claim_C3_path_composition
    { currentEnv := ["PATH=/c"],
      devEnvVars := [("PATH", ⟨"exported", "/b"⟩)],
      pluginEnv := [], envConfigEnabled := false, cfgEnv := [],
      projectDir := "/p", pluginVirtenvDir := "/a" }
    [("PATH", "/c")] rfl
  exact ⟨env, h1, h2.trans (by decide)⟩

theorem buildCurrentEnv_ignored (kvs : List String) (env0 : Env)
    (hinv : ∀ k, ignoreCurrentEnvVar k = true → envLookup env0 k = none)
    (env1 : Env) (h : buildCurrentEnv kvs env0 = Except.ok env1) :
    ∀ k, ignoreCurrentEnvVar k = true → envLookup env1 k = none := by
  induction kvs generalizing env0 with
  | nil =>
    simp only [buildCurrentEnv, Except.ok.injEq] at h
    exact h ▸ hinv
  | cons kv rest ih =>
    simp only [buildCurrentEnv] at h
    cases hcut : cutEq kv with
    | none => rw [hcut] at h; exact absurd h (by simp)
    | some p =>
      rcases p with ⟨key, val⟩
      rw [hcut] at h
      dsimp only at h
      by_cases hig : ignoreCurrentEnvVar key = true
      · rw [if_pos hig] at h
        exact ih env0 hinv h
      · rw [if_neg hig] at h
        refine ih (updateAssoc env0 key val) ?_ h
        intro k hk
        have hne : k ≠ key := fun hc => hig (hc ▸ hk)
        rw [envLookup_updateAssoc_ne _ _ _ _ hne]
        exact hinv k hk

/-- C4 counterexample: composing the ambient mapping
`[PATH=/c, A=1]` with empty build, plugin and config layers does not give
back the ambient mapping minus the ignore-set: the synthetic marker
`DEVBOX_SHELL_ENABLED` (absent from the ambient mapping) is present in the
result, and `PATH` changes from `/c` to `/v:/c:/c` (the plugin virtenv
binary directory is prepended and the ambient `PATH` duplicated). -/
theorem claim_C4_counterexample :
    envLookup [("PATH", "/c"), ("A", "1")] "DEVBOX_SHELL_ENABLED" = none ∧
    (computeNixEnv
        { currentEnv := ["PATH=/c", "A=1"], devEnvVars := [], pluginEnv := [],
          envConfigEnabled := false, cfgEnv := [], projectDir := "/p",
          pluginVirtenvDir := "/v" }).toOption.bind
      (fun e => envLookup e "DEVBOX_SHELL_ENABLED") = some "1" ∧
    (computeNixEnv
        { currentEnv := ["PATH=/c", "A=1"], devEnvVars := [], pluginEnv := [],
          envConfigEnabled := false, cfgEnv := [], projectDir := "/p",
          pluginVirtenvDir := "/v" }).toOption.bind
      (fun e => envLookup e "PATH") = some "/v:/c:/c" := by
  refine ⟨rfl, ?_, ?_⟩ <;> decide

/-- C4 (amended): composing an ambient mapping with empty build, plugin and
config layers yields the ambient mapping minus the ignore-set, except that
the two synthetic session markers are added with value `"1"` and `PATH` is
recomputed as virtenv-dir, then ambient `PATH`, then ambient `PATH` again
(so the `PATH` value itself is not preserved). -/
theorem claim_C4_ambient_only (i : ComposeInput) (env0 : Env)
    (hdev : i.devEnvVars = []) (hplug : i.pluginEnv = [])
    (hcfg : i.envConfigEnabled = false)
    (h : buildCurrentEnv i.currentEnv [] = Except.ok env0) :
    ∃ env, computeNixEnv i = Except.ok env ∧
      (∀ k, k ≠ "PATH" → k ≠ "__ETC_PROFILE_NIX_SOURCED" →
        k ≠ "DEVBOX_SHELL_ENABLED" → envLookup env k = envLookup env0 k) ∧
      (∀ k, ignoreCurrentEnvVar k = true → envLookup env k = none) ∧
      envLookup env "__ETC_PROFILE_NIX_SOURCED" = some "1" ∧
      envLookup env "DEVBOX_SHELL_ENABLED" = some "1" ∧
      envLookup env "PATH" =
        some (JoinPathLists [i.pluginVirtenvDir, envGet env0 "PATH", envGet env0 "PATH"]) := by
  unfold computeNixEnv
  rw [h, hdev, hplug, hcfg]
  refine ⟨_, rfl, ?_, ?_, ?_, ?_, ?_⟩
  · intro k hp hm1 hm2
    simp only [mergeDevEnv, mergeEnvPairs, Bool.false_eq_true, if_false]
    rw [envLookup_updateAssoc_ne _ _ _ _ hp, envLookup_updateAssoc_ne _ _ _ _ hm2,
      envLookup_updateAssoc_ne _ _ _ _ hm1]
  · intro k hk
    have hlist : k = "PWD" ∨ k = "OLDPWD" ∨ k = "SHLVL" ∨ k = "SHELL" := by
      simpa [ignoreCurrentEnvVar, List.contains] using hk
    have h0 : envLookup env0 k = none :=
      buildCurrentEnv_ignored i.currentEnv [] (fun _ _ => rfl) env0 h k hk
    have hp : k ≠ "PATH" := by rcases hlist with h | h | h | h <;> subst h <;> decide
    have hm1 : k ≠ "__ETC_PROFILE_NIX_SOURCED" := by
      rcases hlist with h | h | h | h <;> subst h <;> decide
    have hm2 : k ≠ "DEVBOX_SHELL_ENABLED" := by
      rcases hlist with h | h | h | h <;> subst h <;> decide
    simp only [mergeDevEnv, mergeEnvPairs, Bool.false_eq_true, if_false]
    rw [envLookup_updateAssoc_ne _ _ _ _ hp, envLookup_updateAssoc_ne _ _ _ _ hm2,
      envLookup_updateAssoc_ne _ _ _ _ hm1, h0]
  · simp only [mergeDevEnv, mergeEnvPairs, Bool.false_eq_true, if_false]
    rw [envLookup_updateAssoc_ne _ _ _ _ (by decide : ("__ETC_PROFILE_NIX_SOURCED" : String) ≠ "PATH"),
      envLookup_updateAssoc_ne _ _ _ _ (by decide : ("__ETC_PROFILE_NIX_SOURCED" : String) ≠ "DEVBOX_SHELL_ENABLED"),
      envLookup_updateAssoc_self]
  · simp only [mergeDevEnv, mergeEnvPairs, Bool.false_eq_true, if_false]
    rw [envLookup_updateAssoc_ne _ _ _ _ (by decide : ("DEVBOX_SHELL_ENABLED" : String) ≠ "PATH"),
      envLookup_updateAssoc_self]
  · simp only [mergeDevEnv, mergeEnvPairs, Bool.false_eq_true, if_false]
    rw [envLookup_updateAssoc_self]

theorem claim_C4_ambient_only_witness :
    ∃ env,
      computeNixEnv
        { currentEnv := ["PATH=/c", "A=1"], devEnvVars := [], pluginEnv := [],
          envConfigEnabled := false, cfgEnv := [], projectDir := "/p",
          pluginVirtenvDir := "/v" } = Except.ok env ∧
      envLookup env "A" = some "1" ∧
      envLookup env "DEVBOX_SHELL_ENABLED" = some "1" ∧
      envLookup env "PATH" = some "/v:/c:/c" := by
  obtain ⟨env, h1, hagree, _, _, hm2, hpath⟩ := claim_C4_ambient_only
    { currentEnv := ["PATH=/c", "A=1"], devEnvVars := [], pluginEnv := [],
      envConfigEnabled := false, cfgEnv := [], projectDir := "/p",
      pluginVirtenvDir := "/v" }
    [("PATH", "/c"), ("A", "1")] rfl rfl rfl rfl
  refine ⟨env, h1, ?_, hm2, hpath.trans (by decide)⟩
  rw [hagree "A" (by decide) (by decide) (by decide)]
  decide

/-! ## Script materializer (`Devbox.writeScriptsToFiles`)

The scripts directory is modelled as an association list from file name to
file content (`Dir`); `updateAssoc` plays the role of `os.Create` followed
by `WriteString` (truncate-or-create).  File permissions are uniform
(0755) and are not modelled.  `os.Remove` failures are modelled by the
`removeOk` predicate: a file whose deletion fails stays behind and the run
still succeeds (the source only logs the error). -/

/-- The scripts directory is a mapping from file name to content. -/
abbrev Dir := Env

/-- `scriptsDir`, `hooksFilename` (src/unnamed/part_002 lines 45-47). -/
def hooksFilename : String := ".hooks"

/-- `Devbox.scriptFilename`: scripts are stored as `<name>.sh`. -/
def scriptFilename (scriptName : String) : String := scriptName ++ ".sh"

/-- `Devbox.scriptPath` (with `filepath.Join` as `/`-concatenation). -/
def scriptPath (projectDir filename : String) : String :=
  projectDir ++ "/.devbox/gen/scripts/" ++ filename

/-- `Devbox.scriptBody`: every script sources the hooks artifact first. -/
def scriptBody (projectDir body : String) : String :=
  ". " ++ scriptPath projectDir (scriptFilename hooksFilename) ++ "\n\n" ++ body

/-- `Devbox.writeScriptFile` (src/unnamed/part_002 lines 946-963): create or
truncate one artifact. -/
def writeScriptFile (dir : Dir) (name body : String) : Dir :=
  updateAssoc dir (scriptFilename name) body

/-- Apply a sequence of `writeScriptFile`-style writes in order. -/
def applyWrites : Dir → List (String × String) → Dir
  | dir, [] => dir
  | dir, (n, b) :: ws => applyWrites (updateAssoc dir n b) ws

/-- The write sequence of one `writeScriptsToFiles` run: the hooks artifact
(user init hook and plugin hooks joined by blank lines — written even when
empty), then one artifact per declared script whose body sources the hooks
artifact.  Each element is the (file name, content) pair of one
`writeScriptFile` call. -/
def scriptWrites (projectDir userHook : String) (pluginHooks : List String)
    (scripts : List (String × String)) : List (String × String) :=
  (scriptFilename hooksFilename, String.intercalate "\n\n" (userHook :: pluginHooks)) ::
    scripts.map (fun nb => (scriptFilename nb.1, scriptBody projectDir nb.2))

/-- `Devbox.writeScriptsToFiles` (src/unnamed/part_002 lines 898-944):
snapshot the directory entries, write the hooks artifact and one artifact
per declared script, then delete every pre-existing file that was not just
written (best effort: a failed deletion is logged and the file stays). -/
def writeScriptsToFiles (projectDir userHook : String) (pluginHooks : List String)
    (scripts : List (String × String)) (removeOk : String → Bool) (dir : Dir) : Dir :=
  let entries := dir.map Prod.fst
  let ws := scriptWrites projectDir userHook pluginHooks scripts
  let written := ws.map Prod.fst
  (applyWrites dir ws).filter
    (fun e => decide (e.1 ∈ written ∨ e.1 ∉ entries ∨ removeOk e.1 = false))

/-- The last content written to file `k` by a write sequence, if any. -/
def lastVal : List (String × String) → String → Option String
  | [], _ => none
  | (n, b) :: ws, k =>
    match lastVal ws k with
    | some v => some v
    | none => if k = n then some b else none

theorem lastVal_none_iff (ws : List (String × String)) (k : String) :
    lastVal ws k = none ↔ k ∉ ws.map Prod.fst := by
  induction ws with
  | nil => simp [lastVal]
  | cons w ws ih =>
    rcases w with ⟨n, b⟩
    simp only [lastVal, List.map_cons, List.mem_cons]
    cases h : lastVal ws k with
    | some v =>
      have hk : k ∈ ws.map Prod.fst := by
        by_contra hc
        rw [ih.mpr hc] at h
        exact Option.noConfusion h
      simp [hk]
    | none =>
      have hn : k ∉ ws.map Prod.fst := ih.mp h
      by_cases hkn : k = n <;> simp [hkn, hn]

theorem lastVal_snoc (ws : List (String × String)) (n b : String) (k : String) :
    lastVal (ws ++ [(n, b)]) k = if k = n then some b else lastVal ws k := by
  induction ws with
  | nil => simp [lastVal]
  | cons w ws ih =>
    rcases w with ⟨m, c⟩
    rw [List.cons_append]
    show (match lastVal (ws ++ [(n, b)]) k with
      | some v => some v
      | none => if k = m then some c else none) =
      if k = n then some b else lastVal ((m, c) :: ws) k
    rw [ih]
    by_cases hkn : k = n
    · rw [if_pos hkn, if_pos hkn]
    · rw [if_neg hkn, if_neg hkn]
      rfl

theorem applyWrites_snoc (dir : Dir) (ws : List (String × String)) (n b : String) :
    applyWrites dir (ws ++ [(n, b)]) = updateAssoc (applyWrites dir ws) n b := by
  induction ws generalizing dir with
  | nil => rfl
  | cons w ws ih =>
    rcases w with ⟨m, c⟩
    simp only [List.cons_append, applyWrites]
    exact ih _

theorem keys_updateAssoc_mem (m : Env) (k v k' : String) :
    k' ∈ (updateAssoc m k v).map Prod.fst ↔ k' ∈ m.map Prod.fst ∨ k' = k := by
  rw [← envLookup_isSome_iff, ← envLookup_isSome_iff, envLookup_updateAssoc]
  by_cases hk' : k' = k <;> simp [hk']

theorem keys_applyWrites_mem (ws : List (String × String)) (dir : Dir) (k : String) :
    k ∈ (applyWrites dir ws).map Prod.fst ↔
      k ∈ dir.map Prod.fst ∨ k ∈ ws.map Prod.fst := by
  induction ws generalizing dir with
  | nil => simp [applyWrites]
  | cons w ws ih =>
    rcases w with ⟨n, b⟩
    simp only [applyWrites, ih, keys_updateAssoc_mem, List.map_cons, List.mem_cons]
    tauto

theorem mem_updateAssoc (m : Env) (k v : String) (e : String × String)
    (h : e ∈ updateAssoc m k v) : (e ∈ m ∧ e.1 ≠ k) ∨ e = (k, v) := by
  unfold updateAssoc at h
  by_cases hany : (m.any fun e => e.1 = k) = true
  · rw [if_pos hany] at h
    rcases List.mem_map.mp h with ⟨e0, he0, heq⟩
    by_cases h0 : e0.1 = k
    · right
      rw [if_pos h0] at heq
      exact heq.symm
    · left
      rw [if_neg h0] at heq
      exact ⟨heq ▸ he0, heq ▸ h0⟩
  · rw [if_neg hany] at h
    rcases List.mem_append.mp h with hm | hs
    · left
      refine ⟨hm, fun hc => hany ?_⟩
      exact List.any_eq_true.mpr ⟨e, hm, by simp [hc]⟩
    · right
      simpa using hs

theorem applyWrites_not_written_mem (ws : List (String × String)) (dir : Dir)
    (e : String × String) (h : e ∈ applyWrites dir ws)
    (hk : e.1 ∉ ws.map Prod.fst) : e ∈ dir := by
  induction ws generalizing dir with
  | nil => exact h
  | cons w ws ih =>
    rcases w with ⟨n, b⟩
    simp only [List.map_cons, List.mem_cons] at hk
    push_neg at hk
    have hin : e ∈ updateAssoc dir n b := ih _ h hk.2
    rcases mem_updateAssoc dir n b e hin with ⟨hm, _⟩ | hnb
    · exact hm
    · exact absurd (by rw [hnb]) hk.1

theorem applyWrites_lastVal (ws : List (String × String)) (dir : Dir)
    (e : String × String) (h : e ∈ applyWrites dir ws)
    (hk : e.1 ∈ ws.map Prod.fst) : lastVal ws e.1 = some e.2 := by
  induction ws using List.reverseRecOn generalizing dir with
  | nil => simp at hk
  | append_singleton ws w ih =>
    rcases w with ⟨n, b⟩
    rw [applyWrites_snoc] at h
    rcases mem_updateAssoc _ n b e h with ⟨hm, hne⟩ | hnb
    · have hkws : e.1 ∈ ws.map Prod.fst := by
        rw [List.map_append] at hk
        rcases List.mem_append.mp hk with h' | h'
        · exact h'
        · exact absurd (by simpa using h') hne
      rw [lastVal_snoc, if_neg hne]
      exact ih _ hm hkws
    · rw [hnb, lastVal_snoc]
      simp

theorem keys_map_fst (dir : Dir) (f : String × String → String × String)
    (h : ∀ e, (f e).1 = e.1) : (dir.map f).map Prod.fst = dir.map Prod.fst := by
  rw [List.map_map]
  exact List.map_congr_left (fun e _ => h e)

theorem applyWrites_eq_map (ws : List (String × String)) (dir : Dir)
    (hsub : ∀ k ∈ ws.map Prod.fst, k ∈ dir.map Prod.fst) :
    applyWrites dir ws =
      dir.map (fun e => (e.1, (lastVal ws e.1).getD e.2)) := by
  induction ws using List.reverseRecOn with
  | nil =>
    have hfun : ∀ e ∈ dir,
        (fun (e : String × String) => (e.1, (lastVal [] e.1).getD e.2)) e = id e :=
      fun e _ => rfl
    rw [List.map_congr_left hfun, List.map_id]
    rfl
  | append_singleton ws w ih =>
    rcases w with ⟨n, b⟩
    have hsub' : ∀ k ∈ ws.map Prod.fst, k ∈ dir.map Prod.fst := by
      intro k hkmem
      exact hsub k (by simp [hkmem])
    rw [applyWrites_snoc, ih hsub']
    have hn : n ∈ dir.map Prod.fst := hsub n (by simp)
    have hnmap : n ∈ (dir.map
        (fun e => (e.1, (lastVal ws e.1).getD e.2))).map Prod.fst := by
      rw [keys_map_fst]
      · exact hn
      · intro e
        rfl
    have hany : ((dir.map
        (fun e => (e.1, (lastVal ws e.1).getD e.2))).any (fun e => e.1 = n)) = true :=
      (any_key_iff _ n).mpr hnmap
    unfold updateAssoc
    rw [if_pos hany, List.map_map]
    refine List.map_congr_left ?_
    intro e _
    simp only [Function.comp]
    rw [lastVal_snoc]
    by_cases hen : e.1 = n <;> simp [hen]

theorem nodup_keys_updateAssoc (m : Env) (k v : String)
    (h : (m.map Prod.fst).Nodup) : ((updateAssoc m k v).map Prod.fst).Nodup := by
  unfold updateAssoc
  by_cases hany : (m.any fun e => e.1 = k) = true
  · rw [if_pos hany, keys_map_fst]
    · exact h
    · intro e
      by_cases he : e.1 = k <;> simp [he]
  · rw [if_neg hany, List.map_append]
    rw [List.nodup_append]
    refine ⟨h, by simp, ?_⟩
    intro a ha hb
    have hak : a = k := by simpa using hb
    exact hany ((any_key_iff m k).mpr (hak ▸ ha))

theorem nodup_keys_applyWrites (ws : List (String × String)) (dir : Dir)
    (h : (dir.map Prod.fst).Nodup) : ((applyWrites dir ws).map Prod.fst).Nodup := by
  induction ws generalizing dir with
  | nil => exact h
  | cons w ws ih =>
    rcases w with ⟨n, b⟩
    exact ih _ (nodup_keys_updateAssoc dir n b h)

theorem writeScripts_written_mem (pd uh : String) (ph : List String)
    (scripts : List (String × String)) (removeOk : String → Bool) (dir : Dir)
    (k : String) (hk : k ∈ (scriptWrites pd uh ph scripts).map Prod.fst) :
    k ∈ (writeScriptsToFiles pd uh ph scripts removeOk dir).map Prod.fst := by
  have hmem : k ∈ (applyWrites dir (scriptWrites pd uh ph scripts)).map Prod.fst :=
    (keys_applyWrites_mem _ dir k).mpr (Or.inr hk)
  rcases List.mem_map.mp hmem with ⟨e, he, hke⟩
  refine List.mem_map.mpr ⟨e, ?_, hke⟩
  unfold writeScriptsToFiles
  refine List.mem_filter.mpr ⟨he, ?_⟩
  simp only [decide_eq_true_eq]
  exact Or.inl (by rw [hke]; exact hk)

theorem writeScripts_out_mem (pd uh : String) (ph : List String)
    (scripts : List (String × String)) (removeOk : String → Bool) (dir : Dir)
    (e : String × String)
    (he : e ∈ writeScriptsToFiles pd uh ph scripts removeOk dir) :
    (e.1 ∈ (scriptWrites pd uh ph scripts).map Prod.fst ∨ removeOk e.1 = false) ∧
    (e.1 ∈ (scriptWrites pd uh ph scripts).map Prod.fst →
      lastVal (scriptWrites pd uh ph scripts) e.1 = some e.2) := by
  unfold writeScriptsToFiles at he
  have hfa := List.mem_filter.mp he
  have hcond := of_decide_eq_true hfa.2
  refine ⟨?_, fun hw => applyWrites_lastVal _ dir e hfa.1 hw⟩
  rcases hcond with h | h | h
  · exact Or.inl h
  · by_cases hw : e.1 ∈ (scriptWrites pd uh ph scripts).map Prod.fst
    · exact Or.inl hw
    · exact absurd
        (List.mem_map.mpr ⟨e, applyWrites_not_written_mem _ dir e hfa.1 hw, rfl⟩) h
  · exact Or.inr h

theorem writeScripts_idem (pd uh : String) (ph : List String)
    (scripts : List (String × String)) (removeOk : String → Bool) (dir : Dir) :
    writeScriptsToFiles pd uh ph scripts removeOk
        (writeScriptsToFiles pd uh ph scripts removeOk dir) =
      writeScriptsToFiles pd uh ph scripts removeOk dir := by
  have hsub : ∀ k ∈ (scriptWrites pd uh ph scripts).map Prod.fst,
      k ∈ (writeScriptsToFiles pd uh ph scripts removeOk dir).map Prod.fst :=
    fun k hk => writeScripts_written_mem pd uh ph scripts removeOk dir k hk
  have happ : applyWrites (writeScriptsToFiles pd uh ph scripts removeOk dir)
      (scriptWrites pd uh ph scripts) =
      writeScriptsToFiles pd uh ph scripts removeOk dir := by
    rw [applyWrites_eq_map _ _ hsub]
    have hpt : ∀ e ∈ writeScriptsToFiles pd uh ph scripts removeOk dir,
        (fun (e : String × String) =>
          (e.1, (lastVal (scriptWrites pd uh ph scripts) e.1).getD e.2)) e = id e := by
      intro e he
      show (e.1, (lastVal (scriptWrites pd uh ph scripts) e.1).getD e.2) = e
      cases hlv : lastVal (scriptWrites pd uh ph scripts) e.1 with
      | none => rfl
      | some v =>
        have hw : e.1 ∈ (scriptWrites pd uh ph scripts).map Prod.fst := by
          by_contra hc
          rw [(lastVal_none_iff _ e.1).mpr hc] at hlv
          exact Option.noConfusion hlv
        have hlast := (writeScripts_out_mem pd uh ph scripts removeOk dir e he).2 hw
        rw [hlv] at hlast
        rw [Option.some.inj hlast]
        rfl
    rw [List.map_congr_left hpt, List.map_id]
  show (applyWrites (writeScriptsToFiles pd uh ph scripts removeOk dir)
      (scriptWrites pd uh ph scripts)).filter
    (fun e => decide (e.1 ∈ (scriptWrites pd uh ph scripts).map Prod.fst ∨
      e.1 ∉ (writeScriptsToFiles pd uh ph scripts removeOk dir).map Prod.fst ∨
      removeOk e.1 = false)) =
    writeScriptsToFiles pd uh ph scripts removeOk dir
  rw [happ]
  rw [List.filter_eq_self]
  intro e he
  rcases (writeScripts_out_mem pd uh ph scripts removeOk dir e he).1 with h | h
  · exact decide_eq_true (Or.inl h)
  · exact decide_eq_true (Or.inr (Or.inr h))

theorem writeScripts_keys (pd uh : String) (ph : List String)
    (scripts : List (String × String)) (dir : Dir) (k : String) :
    k ∈ (writeScriptsToFiles pd uh ph scripts (fun _ => true) dir).map Prod.fst ↔
      k ∈ (scriptWrites pd uh ph scripts).map Prod.fst := by
  constructor
  · intro hk
    rcases List.mem_map.mp hk with ⟨e, he, hke⟩
    rcases (writeScripts_out_mem pd uh ph scripts (fun _ => true) dir e he).1 with h | h
    · rw [← hke]
      exact h
    · exact absurd h (by simp)
  · exact writeScripts_written_mem pd uh ph scripts (fun _ => true) dir k

/-- C8: the materializer is idempotent — re-running with identical inputs
(same hooks and same declared scripts) reproduces the directory exactly,
byte for byte, for any deletion-failure behavior; with deletions
succeeding, the artifact set after a run is exactly one hooks artifact
(present even for empty hooks) plus one artifact per declared script, all
pre-existing files not rewritten having been pruned; file names stay
unique; and a run writing scripts `a, b` followed by one declaring only
`a` leaves exactly the hooks artifact and `a`.  Deletion failures do not
fail the run: the output is still a directory, only with the stale file
left behind. -/
theorem claim_C8_materializer (projectDir userHook : String)
    (pluginHooks : List String) (scripts : List (String × String))
    (removeOk : String → Bool) (dir : Dir)
    (hnd : (dir.map Prod.fst).Nodup) :
    writeScriptsToFiles projectDir userHook pluginHooks scripts removeOk
        (writeScriptsToFiles projectDir userHook pluginHooks scripts removeOk dir) =
      writeScriptsToFiles projectDir userHook pluginHooks scripts removeOk dir ∧
    (∀ k, k ∈ (writeScriptsToFiles projectDir userHook pluginHooks scripts
          (fun _ => true) dir).map Prod.fst ↔
        (k = scriptFilename hooksFilename ∨ ∃ nb ∈ scripts, k = scriptFilename nb.1)) ∧
    ((writeScriptsToFiles projectDir userHook pluginHooks scripts removeOk dir).map
        Prod.fst).Nodup ∧
    ((writeScriptsToFiles "/p" "" [] [("a", "A")] (fun _ => true)
        (writeScriptsToFiles "/p" "" [] [("a", "A"), ("b", "B")] (fun _ => true)
          [])).map Prod.fst) =
      [scriptFilename hooksFilename, scriptFilename "a"] := by
  refine ⟨writeScripts_idem projectDir userHook pluginHooks scripts removeOk dir,
    ?_, ?_, by decide⟩
  · intro k
    rw [writeScripts_keys]
    simp only [scriptWrites, List.map_cons, List.map_map, List.mem_cons, List.mem_map,
      Function.comp]
    constructor
    · rintro (h | ⟨nb, hnb, hk⟩)
      · exact Or.inl h
      · exact Or.inr ⟨nb, hnb, hk.symm⟩
    · rintro (h | ⟨nb, hnb, hk⟩)
      · exact Or.inl h
      · exact Or.inr ⟨nb, hnb, hk.symm⟩
  · have h1 := nodup_keys_applyWrites (scriptWrites projectDir userHook pluginHooks scripts)
      dir hnd
    unfold writeScriptsToFiles
    exact (List.Sublist.map Prod.fst (List.filter_sublist _)).nodup h1

theorem claim_C8_materializer_witness :
    writeScriptsToFiles "/p" "hook" ["ph"] [("a", "A")] (fun _ => true)
        (writeScriptsToFiles "/p" "hook" ["ph"] [("a", "A")] (fun _ => true) []) =
      writeScriptsToFiles "/p" "hook" ["ph"] [("a", "A")] (fun _ => true) [] :=
  (claim_C8_materializer "/p" "hook" ["ph"] [("a", "A")] (fun _ => true) []
    (by simp)).1

theorem claim_C5_built_env_filter_witness :
    envLookup (mergeDevEnv []
        [("SSL_CERT_FILE", ⟨"exported", "/etc/ssl/cert.pem"⟩)]) "SSL_CERT_FILE" =
      some "/etc/ssl/cert.pem" ∧
    envLookup (mergeDevEnv []
        [("SSL_CERT_FILE", ⟨"exported", "/no-cert-file.crt"⟩)]) "SSL_CERT_FILE" =
      none := by
  constructor
  · rw [claim_C5_built_env_filter [] _ (by simp) "SSL_CERT_FILE"
      ⟨"exported", "/etc/ssl/cert.pem"⟩ (by simp)]
    decide
  · rw [claim_C5_built_env_filter [] _ (by simp) "SSL_CERT_FILE"
      ⟨"exported", "/no-cert-file.crt"⟩ (by simp)]
    decide

end Devbox
